import Mathlib

set_option maxRecDepth 100000

namespace PolymarketSDK

/-!
Shallow embedding of the Polymarket Go SDK auth core
(`src/unnamed/part_000` = EIP-712 signing file, `src/auth/hmac.go` = HMAC +
wallet file).  Bytes are `Nat` values `< 256`, byte strings are `List Nat`.
Keccak-256 (legacy 0x01 padding, as in go-ethereum's `crypto.Keccak256Hash`)
is implemented concretely; the external secp256k1 operations
(`crypto.Sign`, `crypto.SigToPub`, `crypto.PubkeyToAddress`) are passed as
function parameters whose go-ethereum contracts appear as hypotheses.
-/

/-! ### Keccak-256 (the permutation and sponge used by crypto.Keccak256Hash) -/

def rotl64 (x n : Nat) : Nat :=
  ((x <<< n) ||| (x >>> (64 - n))) % (2 ^ 64)

/-- One step of the degree-8 LFSR (`x^8+x^6+x^5+x^4+1`) that generates the
round-constant bits; returns the new register and the output bit. -/
def lfsr86540 (r : Nat) : Nat × Bool :=
  ((if r &&& 0x80 = 0x80 then ((r <<< 1) ^^^ 0x71) &&& 0xFF else (r <<< 1) &&& 0xFF),
    (r &&& 1) == 1)

/-- One round constant: seven LFSR output bits placed at bit positions
`2^j - 1`. -/
def rcRound (r : Nat) : Nat × Nat :=
  (List.range 7).foldl
    (fun p j =>
      let s := lfsr86540 p.1
      (s.1, if s.2 then p.2 ||| (1 <<< (2 ^ j - 1)) else p.2))
    (r, 0)

/-- The 24 Keccak-f[1600] round constants, generated from an LFSR register
starting at 1 (validated below against the published digest of the empty
message). -/
def keccakRC : List Nat :=
  ((List.range 24).foldl
    (fun p _ =>
      let s := rcRound p.1
      (s.1, p.2 ++ [s.2]))
    (1, ([] : List Nat))).2

/-- For each destination lane index of the combined rho+pi step, the source
lane index in the 5×5 state (flat index `x + 5*y`). -/
def rhoPiSrc : List Nat :=
  [0, 6, 12, 18, 24, 3, 9, 10, 16, 22, 1, 7, 13, 19, 20, 4, 5, 11, 17, 23, 2, 8, 14, 15, 21]

/-- For each destination lane index, the left-rotation amount applied to the
source lane. -/
def rhoPiRot : List Nat :=
  [0, 44, 43, 21, 14, 28, 20, 3, 45, 61, 1, 6, 25, 8, 18, 27, 36, 10, 15, 56, 62, 55, 39, 41, 2]

def theta (A : List Nat) : List Nat :=
  let C := (List.range 5).map fun x =>
    (A.getD x 0) ^^^ (A.getD (x + 5) 0) ^^^ (A.getD (x + 10) 0) ^^^
      (A.getD (x + 15) 0) ^^^ (A.getD (x + 20) 0)
  let D := (List.range 5).map fun x =>
    (C.getD ((x + 4) % 5) 0) ^^^ rotl64 (C.getD ((x + 1) % 5) 0) 1
  (List.range 25).map fun i => (A.getD i 0) ^^^ (D.getD (i % 5) 0)

def rhoPi (A : List Nat) : List Nat :=
  (List.range 25).map fun i => rotl64 (A.getD (rhoPiSrc.getD i 0) 0) (rhoPiRot.getD i 0)

def chi (A : List Nat) : List Nat :=
  (List.range 25).map fun i =>
    let x := i % 5
    let y := i - x
    (A.getD i 0) ^^^ (((A.getD ((x + 1) % 5 + y) 0) ^^^ (2 ^ 64 - 1)) &&& (A.getD ((x + 2) % 5 + y) 0))

def iotaStep (r : Nat) (A : List Nat) : List Nat :=
  match A with
  | [] => []
  | a :: rest => (a ^^^ keccakRC.getD r 0) :: rest

def keccakRound (A : List Nat) (r : Nat) : List Nat := iotaStep r (chi (rhoPi (theta A)))

def keccakP (A : List Nat) : List Nat := (List.range 24).foldl keccakRound A

def bytesToLaneLE (bs : List Nat) : Nat := bs.foldr (fun b acc => acc * 256 + b) 0

def laneToBytesLE (n : Nat) : List Nat := (List.range 8).map fun i => (n >>> (8 * i)) % 256

/-- Multi-rate padding with the legacy Keccak domain byte `0x01`
(go-ethereum uses `sha3.NewLegacyKeccak256`, not SHA3's `0x06`). -/
def keccakPad (len : Nat) : List Nat :=
  let r := 136 - len % 136
  if r = 1 then [0x81] else 0x01 :: (List.replicate (r - 2) 0 ++ [0x80])

def absorbBlock (st block : List Nat) : List Nat :=
  keccakP ((List.range 25).map fun i =>
    (st.getD i 0) ^^^ (if i < 17 then bytesToLaneLE ((block.drop (8 * i)).take 8) else 0))

def chunks136 : Nat → List Nat → List (List Nat)
  | 0, _ => []
  | _, [] => []
  | fuel + 1, bs => bs.take 136 :: chunks136 fuel (bs.drop 136)

def keccak256 (msg : List Nat) : List Nat :=
  let padded := msg ++ keccakPad msg.length
  let st := (chunks136 padded.length padded).foldl absorbBlock (List.replicate 25 0)
  ((st.take 4).map laneToBytesLE).flatten

/-- Sanity check of the hash core against the published Keccak-256 test
vector for the empty message. -/
theorem keccak256_empty_vector : keccak256 [] =
    [0xc5, 0xd2, 0x46, 0x01, 0x86, 0xf7, 0x23, 0x3c, 0x92, 0x7e, 0x7d, 0xb2, 0xdc, 0xc7,
     0x03, 0xc0, 0xe5, 0x00, 0xb6, 0x53, 0xca, 0x82, 0x27, 0x3b, 0x7b, 0xfa, 0xd8, 0x04,
     0x5d, 0x85, 0xa4, 0x70] := by decide

/-! ### UTF-8 and numeric encodings -/

/-- UTF-8 encoding of one character (`[]byte(string)` in Go encodes UTF-8). -/
def utf8Char (c : Char) : List Nat :=
  let n := c.toNat
  if n < 0x80 then [n]
  else if n < 0x800 then [0xC0 ||| (n >>> 6), 0x80 ||| (n &&& 0x3F)]
  else if n < 0x10000 then
    [0xE0 ||| (n >>> 12), 0x80 ||| ((n >>> 6) &&& 0x3F), 0x80 ||| (n &&& 0x3F)]
  else
    [0xF0 ||| (n >>> 18), 0x80 ||| ((n >>> 12) &&& 0x3F), 0x80 ||| ((n >>> 6) &&& 0x3F),
     0x80 ||| (n &&& 0x3F)]

/-- The byte string `[]byte(s)` of a Go string. -/
def utf8Bytes (s : String) : List Nat := (s.data.map utf8Char).flatten

/-- 32-byte big-endian encoding, as produced by `big.Int.FillBytes` on a
32-byte buffer (values here are always `< 2^256`, so no truncation occurs;
`FillBytes` would panic otherwise). -/
def be32 (n : Nat) : List Nat := (List.range 32).map fun i => (n >>> (8 * (31 - i))) % 256

/-! ### Hex encoding and decoding (go-ethereum hexutil / common) -/

/-- One lowercase hex digit (`encoding/hex`'s `hextable` lookup): `0`-`9`
for values below ten, `a`-`f` above. -/
def toHexChar (n : Nat) : Char :=
  if n < 10 then Char.ofNat (48 + n) else Char.ofNat (87 + n)

/-- Characters produced by `toHexChar` on nibble values. -/
def IsLowerHex (c : Char) : Prop := ∃ n, n < 16 ∧ c = toHexChar n

def byteHex (b : Nat) : List Char := [toHexChar ((b / 16) % 16), toHexChar (b % 16)]

def bytesToHexChars (bs : List Nat) : List Char := (bs.map byteHex).flatten

/-- Value of one hex digit, case-insensitive (`encoding/hex`). -/
def hexCharVal (c : Char) : Option Nat :=
  let n := c.toNat
  if 48 ≤ n ∧ n ≤ 57 then some (n - 48)
  else if 97 ≤ n ∧ n ≤ 102 then some (n - 87)
  else if 65 ≤ n ∧ n ≤ 70 then some (n - 55)
  else none

/-- Strict pairwise hex decoding: fails on odd length or an invalid digit
(`hex.DecodeString` when its error is checked, as in `hexutil.Decode`). -/
def hexPairs : List Char → Option (List Nat)
  | [] => some []
  | [_] => none
  | c1 :: c2 :: rest =>
    match hexCharVal c1, hexCharVal c2, hexPairs rest with
    | some v1, some v2, some bs => some ((v1 * 16 + v2) :: bs)
    | _, _, _ => none

/-- Lenient pairwise hex decoding: returns the bytes decoded before the first
error (`common.Hex2Bytes`, which discards `hex.DecodeString`'s error). -/
def hex2Bytes : List Char → List Nat
  | c1 :: c2 :: rest =>
    match hexCharVal c1, hexCharVal c2 with
    | some v1, some v2 => (v1 * 16 + v2) :: hex2Bytes rest
    | _, _ => []
  | _ => []

/-- `hexutil.Encode`: `0x` followed by lowercase hex. -/
def hexutilEncode (bs : List Nat) : String :=
  String.mk ('0' :: 'x' :: bytesToHexChars bs)

/-- `hexutil.Decode`: requires the `0x` prefix and fully valid, even-length
hex; all error kinds (empty input, missing prefix, bad digit, odd length)
are collapsed to `none`. -/
def hexutilDecode (s : String) : Option (List Nat) :=
  match s.data with
  | '0' :: 'x' :: rest => hexPairs rest
  | _ => none

/-- `common.FromHex`: strip an optional `0x`/`0X` prefix, left-pad odd-length
input with `0`, then decode leniently. -/
def fromHex (s : String) : List Nat :=
  let cs := match s.data with
    | '0' :: 'x' :: r => r
    | '0' :: 'X' :: r => r
    | r => r
  let cs := if cs.length % 2 = 1 then '0' :: cs else cs
  hex2Bytes cs

/-- `common.BytesToAddress`: keep the last 20 bytes, left-padding with zeros. -/
def bytesToAddress (bs : List Nat) : List Nat :=
  let t := if bs.length > 20 then bs.drop (bs.length - 20) else bs
  List.replicate (20 - t.length) 0 ++ t

/-- `common.HexToAddress`. -/
def hexToAddress (s : String) : List Nat := bytesToAddress (fromHex s)

/-! ### EIP-55 checksummed address rendering (`common.Address.Hex`) -/

/-- The 40 checksum nibbles: `keccak256` of the ASCII lowercase hex of the
address, split into high/low nibbles (go-ethereum `Address.checksumHex`). -/
def checksumNibbles (cs : List Char) : List Nat :=
  let hash := keccak256 (cs.map Char.toNat)
  (List.range 40).map fun i =>
    if i % 2 = 0 then (hash.getD (i / 2) 0) >>> 4 else (hash.getD (i / 2) 0) &&& 15

/-- `if buf[i] > '9' && hashByte > 7 { buf[i] -= 32 }` from `checksumHex`. -/
def upperIf (c : Char) (h : Nat) : Char :=
  if 57 < c.toNat ∧ 7 < h then Char.ofNat (c.toNat - 32) else c

def checksumChars : List Char → List Nat → List Char
  | [], _ => []
  | c :: cs, [] => c :: cs
  | c :: cs, h :: hs => upperIf c h :: checksumChars cs hs

/-- `common.Address.Hex()`: `0x` + the 40 hex chars in EIP-55 checksum case. -/
def addressHexGo (a : List Nat) : String :=
  let cs := bytesToHexChars a
  String.mk ('0' :: 'x' :: checksumChars cs (checksumNibbles cs))

/-! ### Data model (eip712.go structures) -/

/-- The constant message to sign (`MSG_TO_SIGN`). -/
def MSG_TO_SIGN : String := "This message attests that I control the given wallet"

structure EIP712Domain where
  name : String
  version : String
  chainID : Int
  salt : String
  verifyingContract : String
  deriving DecidableEq

structure EIP712Type where
  name : String
  type : String
  deriving DecidableEq

structure ClobAuthData where
  address : String
  timestamp : String
  nonce : Nat
  message : String
  deriving DecidableEq

/-- Go values reachable through `interface{}` message trees, as seen by
`encoding/json`.  Object fields are kept in declaration order (struct
marshalling order). -/
inductive Json where
  | str (s : String)
  | num (n : Int)
  | bool (b : Bool)
  | null
  | arr (xs : List Json)
  | obj (fields : List (String × Json))

structure TypedData where
  types : List (String × List EIP712Type)
  primaryType : String
  domain : EIP712Domain
  message : Json

/-! ### encoding/json serialization (the subset `json.Marshal` applies to
these message trees; Go escapes `"` and `\`, HTML-escapes `<`, `>`, `&` as
`\u00XX`, and encodes control characters) -/

def jsonEscapeChar (c : Char) : List Char :=
  if c = '"' then ['\\', '"']
  else if c = '\\' then ['\\', '\\']
  else if c = '<' then ['\\', 'u', '0', '0', '3', 'c']
  else if c = '>' then ['\\', 'u', '0', '0', '3', 'e']
  else if c = '&' then ['\\', 'u', '0', '0', '2', '6']
  else if c = '\n' then ['\\', 'n']
  else if c = '\r' then ['\\', 'r']
  else if c = '\t' then ['\\', 't']
  else if c.toNat < 32 then
    ['\\', 'u', '0', '0', toHexChar ((c.toNat / 16) % 16), toHexChar (c.toNat % 16)]
  else [c]

def jsonQuote (s : String) : List Char :=
  '"' :: (s.data.map jsonEscapeChar).flatten ++ ['"']

mutual

def jsonChars : Json → List Char
  | .str s => jsonQuote s
  | .num n => (toString n).data
  | .bool b => (if b then "true" else "false").data
  | .null => "null".data
  | .arr xs => '[' :: jsonCharsArr xs ++ [']']
  | .obj fs => '\x7b' :: jsonCharsObj fs ++ ['\x7d']

def jsonCharsArr : List Json → List Char
  | [] => []
  | [x] => jsonChars x
  | x :: rest => jsonChars x ++ ',' :: jsonCharsArr rest

def jsonCharsObj : List (String × Json) → List Char
  | [] => []
  | [(k, v)] => jsonQuote k ++ ':' :: jsonChars v
  | (k, v) :: rest => jsonQuote k ++ ':' :: jsonChars v ++ ',' :: jsonCharsObj rest

end

/-- `json.Marshal` output bytes of a message tree. -/
def jsonMarshal (j : Json) : List Nat := (String.mk (jsonChars j)).data.map utf8Char |>.flatten

/-! ### EIP-712 hashing (eip712.go), translated statement by statement -/

/-- `getDomainSeparator`: note that `salt` and `verifyingContract` are never
read, and that `new(big.Int).SetInt64(chainID)` followed by `FillBytes`
writes the 32-byte big-endian **absolute value** of the chain id. -/
def getDomainSeparator (domain : EIP712Domain) : List Nat :=
  let typeHash := keccak256 (utf8Bytes "EIP712Domain(string name,string version,uint256 chainId)")
  let nameHash := keccak256 (utf8Bytes domain.name)
  let versionHash := keccak256 (utf8Bytes domain.version)
  let chainIdBytes := be32 domain.chainID.natAbs
  keccak256 (typeHash ++ nameHash ++ versionHash ++ chainIdBytes)

/-- `getTypeHash`: ignores its argument and hashes the fixed type string. -/
def getTypeHash (_types : List EIP712Type) : List Nat :=
  keccak256 (utf8Bytes "ClobAuth(address address,string timestamp,uint256 nonce,string message)")

/-- `encodeClobAuthData`. -/
def encodeClobAuthData (data : ClobAuthData) : List Nat :=
  let address := hexToAddress data.address
  let addressBytes := List.replicate 12 0 ++ address
  let timestampHash := keccak256 (utf8Bytes data.timestamp)
  let nonceBytes := be32 data.nonce
  let messageHash := keccak256 (utf8Bytes data.message)
  addressBytes ++ timestampHash ++ nonceBytes ++ messageHash

/-- The `types` map built in `BuildClobEip712Signature`. -/
def clobAuthTypes : List EIP712Type :=
  [⟨"address", "address"⟩, ⟨"timestamp", "string"⟩, ⟨"nonce", "uint256"⟩, ⟨"message", "string"⟩]

/-- The digest `BuildClobEip712Signature` passes to `crypto.Sign`, built from
the signer's 20-byte address exactly as in the source (domain/type/struct
hash and the `\x19\x01` prefix, the address travelling through its
checksummed hex rendering). -/
def clobAuthDigest (addr : List Nat) (chainID timestamp : Int) (nonce : Nat) : List Nat :=
  let domain : EIP712Domain := ⟨"ClobAuthDomain", "1", chainID, "", ""⟩
  let message : ClobAuthData := ⟨addressHexGo addr, toString timestamp, nonce, MSG_TO_SIGN⟩
  let domainSeparator := getDomainSeparator domain
  let typeHash := getTypeHash clobAuthTypes
  let encodeData := encodeClobAuthData message
  let structHash := keccak256 (typeHash ++ encodeData)
  keccak256 ([0x19, 0x01] ++ domainSeparator ++ structHash)

/-- `if signature[64] < 27 { signature[64] += 27 }`. -/
def adjustV27 (sig : List Nat) : List Nat :=
  let v := sig.getD 64 0
  if v < 27 then sig.set 64 (v + 27) else sig

/-- `BuildClobEip712Signature`, parameterized over the external go-ethereum
primitives: `sign` models `crypto.Sign` (65 bytes, `v ∈ {0,1}`) and
`pubAddr` models `crypto.PubkeyToAddress(privateKey.PublicKey)` (20 bytes);
private keys are opaque handles. -/
def BuildClobEip712Signature (sign : List Nat → Nat → List Nat) (pubAddr : Nat → List Nat)
    (privateKey : Nat) (chainID timestamp : Int) (nonce : Nat) : String :=
  let hash := clobAuthDigest (pubAddr privateKey) chainID timestamp nonce
  let signature := sign hash privateKey
  hexutilEncode (adjustV27 signature)

/-- `getMessageHash`: hashes the `json.Marshal` serialization of the message. -/
def getMessageHash (typedData : TypedData) : List Nat :=
  keccak256 (jsonMarshal typedData.message)

/-- `getTypedDataHash`. -/
def getTypedDataHash (typedData : TypedData) : List Nat :=
  let domainSeparator := getDomainSeparator typedData.domain
  let messageHash := getMessageHash typedData
  keccak256 ([0x19, 0x01] ++ domainSeparator ++ messageHash)

/-- `SignTypedData`: signs the typed-data hash; note the absence of any
recovery-byte adjustment before `hexutil.Encode`. -/
def SignTypedData (sign : List Nat → Nat → List Nat) (privateKey : Nat)
    (typedData : TypedData) : String :=
  let hash := getTypedDataHash typedData
  let signature := sign hash privateKey
  hexutilEncode signature

inductive RecoverError where
  | decodeError
  | invalidSignatureLength
  | invalidSignature
  deriving DecidableEq

/-- `RecoverAddress`, parameterized over `crypto.SigToPub` (returns an opaque
public-key handle or fails) and `crypto.PubkeyToAddress`. -/
def RecoverAddress (sigToPub : List Nat → List Nat → Option Nat)
    (pubkeyToAddress : Nat → List Nat) (hash : List Nat) (signature : String) :
    Except RecoverError (List Nat) :=
  match hexutilDecode signature with
  | none => .error .decodeError
  | some sig =>
    if sig.length ≠ 65 then .error .invalidSignatureLength
    else
      let v := sig.getD 64 0
      let sig := if v ≠ 27 ∧ v ≠ 28 then sig.set 64 (v + 27) else sig
      match sigToPub hash sig with
      | none => .error .invalidSignature
      | some pubkey => .ok (pubkeyToAddress pubkey)

/-! ### Wallet (wallet part of src/auth) -/

structure Wallet where
  privateKey : Nat
  address : List Nat

/-- `NewWalletFromPrivateKey`. -/
def NewWalletFromPrivateKey (pubAddr : Nat → List Nat) (privateKey : Nat) : Wallet :=
  ⟨privateKey, pubAddr privateKey⟩

/-- `GetAddressHex`: renders the wallet address with `common.Address.Hex()`. -/
def GetAddressHex (w : Wallet) : String := addressHexGo w.address

/-- `SignMessage`: keccak-hash the message, sign, hex-encode — with no
recovery-byte adjustment. -/
def SignMessage (sign : List Nat → Nat → List Nat) (w : Wallet) (message : List Nat) : String :=
  let hash := keccak256 message
  hexutilEncode (sign hash w.privateKey)

/-- `SignHash`: sign a given hash, hex-encode — no recovery-byte adjustment. -/
def SignHash (sign : List Nat → Nat → List Nat) (w : Wallet) (hash : List Nat) : String :=
  hexutilEncode (sign hash w.privateKey)

/-- `RecoverAddressFromMessage`. -/
def RecoverAddressFromMessage (sigToPub : List Nat → List Nat → Option Nat)
    (pubkeyToAddress : Nat → List Nat) (message : List Nat) (signature : String) :
    Except RecoverError (List Nat) :=
  match hexutilDecode signature with
  | none => .error .decodeError
  | some sig =>
    if sig.length ≠ 65 then .error .invalidSignatureLength
    else
      let hash := keccak256 message
      let v := sig.getD 64 0
      let sig := if v ≠ 27 ∧ v ≠ 28 then sig.set 64 (v + 27) else sig
      match sigToPub hash sig with
      | none => .error .invalidSignature
      | some pubkey => .ok (pubkeyToAddress pubkey)

/-! ### Base64 (encoding/base64: StdEncoding for output, URLEncoding for the
secret) -/

def b64StdAlphabet : List Char :=
  "ABCDEFGHIJKLMNOPQRSTUVWXYZabcdefghijklmnopqrstuvwxyz0123456789+/".data

def b64UrlAlphabet : List Char :=
  "ABCDEFGHIJKLMNOPQRSTUVWXYZabcdefghijklmnopqrstuvwxyz0123456789-_".data

/-- `base64.StdEncoding.EncodeToString` (with `=` padding). -/
def base64StdEncode : List Nat → List Char
  | [] => []
  | [b1] =>
    [b64StdAlphabet.getD ((b1 >>> 2) % 64) 'A', b64StdAlphabet.getD ((b1 &&& 3) <<< 4) 'A',
     '=', '=']
  | [b1, b2] =>
    [b64StdAlphabet.getD ((b1 >>> 2) % 64) 'A',
     b64StdAlphabet.getD (((b1 &&& 3) <<< 4) ||| (b2 >>> 4)) 'A',
     b64StdAlphabet.getD ((b2 &&& 15) <<< 2) 'A', '=']
  | b1 :: b2 :: b3 :: rest =>
    [b64StdAlphabet.getD ((b1 >>> 2) % 64) 'A',
     b64StdAlphabet.getD (((b1 &&& 3) <<< 4) ||| (b2 >>> 4)) 'A',
     b64StdAlphabet.getD (((b2 &&& 15) <<< 2) ||| (b3 >>> 6)) 'A',
     b64StdAlphabet.getD (b3 &&& 63) 'A'] ++ base64StdEncode rest

def b64UrlVal (c : Char) : Option Nat :=
  let rec idx : List Char → Nat → Option Nat
    | [], _ => none
    | a :: rest, i => if a = c then some i else idx rest (i + 1)
  idx b64UrlAlphabet 0

/-- Four-character quantum decoding for `base64.URLEncoding.DecodeString`
(padded; `=` allowed only in the final quantum; like Go's non-strict decoder
it does not reject unused trailing bits). -/
def b64Quanta : List Char → Option (List Nat)
  | [] => some []
  | c1 :: c2 :: c3 :: c4 :: rest =>
    match b64UrlVal c1, b64UrlVal c2 with
    | some v1, some v2 =>
      if c3 = '=' then
        if c4 = '=' ∧ rest = [] then some [(v1 <<< 2) ||| (v2 >>> 4)] else none
      else
        match b64UrlVal c3 with
        | some v3 =>
          if c4 = '=' then
            if rest = [] then some [(v1 <<< 2) ||| (v2 >>> 4), ((v2 &&& 15) <<< 4) ||| (v3 >>> 2)]
            else none
          else
            match b64UrlVal c4, b64Quanta rest with
            | some v4, some bs =>
              some ([(v1 <<< 2) ||| (v2 >>> 4), ((v2 &&& 15) <<< 4) ||| (v3 >>> 2),
                     ((v3 &&& 3) <<< 6) ||| v4] ++ bs)
            | _, _ => none
        | none => none
    | _, _ => none
  | _ => none

/-- `base64.URLEncoding.DecodeString`; Go's decoder skips `\r` and `\n`. -/
def base64UrlDecode (s : String) : Option (List Nat) :=
  b64Quanta (s.data.filter fun c => c ≠ '\r' ∧ c ≠ '\n')

/-! ### HMAC request signing (src/auth/hmac.go), with `HMAC-SHA256` as an
abstract parameter `hmacSha256 key message` -/

/-- `BuildPolyHmacSignature`, translated statement by statement. -/
def BuildPolyHmacSignature (hmacSha256 : List Nat → List Nat → List Nat) (secret : String)
    (timestamp : Int) (method requestPath : String) (body : Option String) : String :=
  let message := toString timestamp ++ method ++ requestPath
  let message := match body with
    | some b => message ++ b
    | none => message
  let base64Secret := match base64UrlDecode secret with
    | some k => k
    | none => utf8Bytes secret
  let signature := hmacSha256 base64Secret (utf8Bytes message)
  let sig := base64StdEncode signature
  let sigUrlSafe := (sig.map fun c => if c = '+' then '-' else c).map
    fun c => if c = '/' then '_' else c
  String.mk sigUrlSafe

/-- `BuildMessage`. -/
def BuildMessage (timestamp : Int) (method requestPath : String) (body : Option String) : String :=
  let message := toString timestamp ++ method ++ requestPath
  match body with
  | some b => message ++ b
  | none => message

/-- `VerifyHmacSignature` (`hmac.Equal` is byte equality in constant time). -/
def VerifyHmacSignature (hmacSha256 : List Nat → List Nat → List Nat) (secret : String)
    (timestamp : Int) (method requestPath : String) (body : Option String)
    (signature : String) : Bool :=
  BuildPolyHmacSignature hmacSha256 secret timestamp method requestPath body == signature

/-! ### Contracts of the external go-ethereum primitives -/

/-- Output contract of `crypto.Sign` on success: a 65-byte `[R || S || V]`
signature whose recovery byte `V` is 0 or 1 ("where V is 0 or 1" in its
documentation). -/
def GoSignOutput (sign : List Nat → Nat → List Nat) : Prop :=
  ∀ d k, (sign d k).length = 65 ∧ (∀ b ∈ sign d k, b < 256) ∧ (sign d k).getD 64 0 < 2

/-- Input contract of `crypto.SigToPub`/`Ecrecover`: `checkSignature`
rejects any 65-byte signature whose recovery byte is `≥ 4`
(`ErrInvalidRecoveryID`; the pure-Go build rejects `≥ 8`, so a byte of 27 or
28 fails on every build). -/
def SigToPubRejects (sigToPub : List Nat → List Nat → Option Nat) : Prop :=
  ∀ h s, 4 ≤ s.getD 64 0 → sigToPub h s = none

/-- Output contract of `crypto.PubkeyToAddress`: a 20-byte address. -/
def GoAddrOutput (pubAddr : Nat → List Nat) : Prop :=
  ∀ k, (pubAddr k).length = 20 ∧ ∀ b ∈ pubAddr k, b < 256

/-! ### Spec-side formulas (written from the specification text, to be
compared with the source-translated definitions) -/

/-- Spec §4.2/C5: the domain separator of the canonical path —
`keccak256(typeHash || keccak256(name) || keccak256(version) || be32(chainId))`
with `salt` and `verifyingContract` omitted. -/
def domainSeparatorSpec (chainID : Nat) : List Nat :=
  keccak256 (keccak256 (utf8Bytes "EIP712Domain(string name,string version,uint256 chainId)")
    ++ keccak256 (utf8Bytes "ClobAuthDomain") ++ keccak256 (utf8Bytes "1") ++ be32 chainID)

/-- Spec §4.2/C5: the canonical `ClobAuth` struct hash — type hash, then the
12-zero-padded 20-byte address, `keccak256` of the timestamp string, the
32-byte big-endian nonce, and `keccak256` of the fixed attestation message,
in that field order. -/
def clobStructHashSpec (addr : List Nat) (timestamp : Int) (nonce : Nat) : List Nat :=
  keccak256
    (keccak256 (utf8Bytes "ClobAuth(address address,string timestamp,uint256 nonce,string message)")
      ++ (List.replicate 12 0 ++ addr) ++ keccak256 (utf8Bytes (toString timestamp))
      ++ be32 nonce ++ keccak256 (utf8Bytes MSG_TO_SIGN))

/-- Spec §4.2/C5: `keccak256(0x19 0x01 || domainSeparator || structHash)`. -/
def clobDigestSpec (addr : List Nat) (chainID : Nat) (timestamp : Int) (nonce : Nat) : List Nat :=
  keccak256 ([0x19, 0x01] ++ domainSeparatorSpec chainID ++ clobStructHashSpec addr timestamp nonce)

/-- Spec §4.4/C6: the canonical HMAC message
`decimalString(timestamp) || method || path || body?`, with the body omitted
entirely when absent. -/
def canonicalMessageSpec (timestamp : Int) (method path : String) (body : Option String) :
    List Nat :=
  utf8Bytes (toString timestamp) ++ utf8Bytes method ++ utf8Bytes path ++
    (match body with
     | some b => utf8Bytes b
     | none => [])

/-- Spec §4.4/C6: key selection — URL-safe base64 decode of the secret, raw
bytes of the secret on decode failure. -/
def hmacKeySpec (secret : String) : List Nat :=
  match base64UrlDecode secret with
  | some k => k
  | none => utf8Bytes secret

/-- Spec §4.4/C6: standard base64 of the MAC with `+`→`-` and `/`→`_`
translated in place and `=` padding left untouched. -/
def hmacTagSpec (hmacSha256 : List Nat → List Nat → List Nat) (secret : String)
    (timestamp : Int) (method path : String) (body : Option String) : String :=
  String.mk ((base64StdEncode
      (hmacSha256 (hmacKeySpec secret) (canonicalMessageSpec timestamp method path body))).map
    fun c => if c = '+' then '-' else if c = '/' then '_' else c)

def joinComma : List String → String
  | [] => ""
  | [s] => s
  | s :: rest => s ++ "," ++ joinComma rest

/-- Modelled from the spec: one level of the generic recursive EIP-712 struct
encoding of §4.2 ("recursively encodes nested structs (hash of their own
type+field encoding, inserted as a 32-byte slot) and arrays (hash of the
concatenation of each element's encoding), following the same head-encoding
rules"), which is absent from src — the source's `getMessageHash` hashes a
JSON serialization instead.  `rec` encodes one level deeper; atomic types
are `string`, `uint256`, `address` and `bool`; schema errors yield `none`
(`UnknownType`/`MissingField`/`TypeMismatch`). -/
def eip712Step (rec : String → Json → Option (List Nat))
    (types : List (String × List EIP712Type)) (ty : String) (v : Json) : Option (List Nat) :=
  match types.lookup ty with
  | some fields =>
    match v with
    | .obj fvs =>
      let typeString := ty ++ "(" ++ joinComma (fields.map fun f => f.type ++ " " ++ f.name) ++ ")"
      let encs := fields.mapM fun f =>
        match fvs.lookup f.name with
        | some fv => rec f.type fv
        | none => none
      match encs with
      | some es => some (keccak256 (keccak256 (utf8Bytes typeString) ++ es.flatten))
      | none => none
    | _ => none
  | none =>
    if ty.data.reverse.take 2 = [']', '['] then
      match v with
      | .arr xs =>
        match xs.mapM (rec (String.mk ty.data.dropLast.dropLast)) with
        | some es => some (keccak256 es.flatten)
        | none => none
      | _ => none
    else if ty = "string" then
      match v with
      | .str s => some (keccak256 (utf8Bytes s))
      | _ => none
    else if ty = "uint256" then
      match v with
      | .num n => some (be32 n.natAbs)
      | _ => none
    else if ty = "address" then
      match v with
      | .str s => some (List.replicate 12 0 ++ hexToAddress s)
      | _ => none
    else if ty = "bool" then
      match v with
      | .bool b => some (be32 (if b then 1 else 0))
      | _ => none
    else none

/-- Modelled from the spec: the generic recursive EIP-712 encoding, with a
fuel bound on nesting depth. -/
def eip712EncodeValueSpec :
    Nat → List (String × List EIP712Type) → String → Json → Option (List Nat)
  | 0, _, _, _ => none
  | fuel + 1, types, ty, v => eip712Step (eip712EncodeValueSpec fuel types) types ty v

/-- Modelled from the spec: the message hash of the generic typed-data path —
the struct hash of the primary type (§4.2). -/
def eip712MessageHashSpec (fuel : Nat) (typedData : TypedData) : Option (List Nat) :=
  eip712EncodeValueSpec fuel typedData.types typedData.primaryType typedData.message

/-! ### Hex lemmas -/

theorem hexCharVal_toHexChar {n : Nat} (h : n < 16) : hexCharVal (toHexChar n) = some n := by
  interval_cases n <;> decide

theorem toHexChar_mem_lower {n : Nat} (h : n < 16) : IsLowerHex (toHexChar n) :=
  ⟨n, h, rfl⟩

theorem hexPairs_bytesToHexChars : ∀ bs : List Nat, (∀ b ∈ bs, b < 256) →
    hexPairs (bytesToHexChars bs) = some bs := by
  intro bs
  induction bs with
  | nil => intro _; rfl
  | cons b rest ih =>
    intro h
    have hb : b < 256 := h b (List.mem_cons_self _ _)
    have hrec := ih fun x hx => h x (List.mem_cons_of_mem _ hx)
    have h1 : (b / 16) % 16 < 16 := Nat.mod_lt _ (by omega)
    have h2 : b % 16 < 16 := Nat.mod_lt _ (by omega)
    simp only [bytesToHexChars, List.map_cons, List.flatten_cons, byteHex, List.cons_append,
      List.nil_append] at *
    rw [hexPairs, hexCharVal_toHexChar h1, hexCharVal_toHexChar h2, hrec]
    have : (b / 16) % 16 * 16 + b % 16 = b := by omega
    show some ((b / 16 % 16 * 16 + b % 16) :: rest) = some (b :: rest)
    rw [this]

theorem hexutilDecode_encode (bs : List Nat) (hb : ∀ b ∈ bs, b < 256) :
    hexutilDecode (hexutilEncode bs) = some bs :=
  hexPairs_bytesToHexChars bs hb

theorem hexCharVal_upperIf {c : Char} (hc : IsLowerHex c) (h : Nat) :
    hexCharVal (upperIf c h) = hexCharVal c := by
  obtain ⟨n, hn, rfl⟩ := hc
  unfold upperIf
  split
  · next hcond => interval_cases n <;> first | decide | exact absurd hcond.1 (by decide)
  · rfl

theorem hex2Bytes_pair {d1 d2 : Char} {v1 v2 : Nat} (rest : List Char)
    (h1 : hexCharVal d1 = some v1) (h2 : hexCharVal d2 = some v2) :
    hex2Bytes (d1 :: d2 :: rest) = (v1 * 16 + v2) :: hex2Bytes rest := by
  rw [hex2Bytes, h1, h2]

theorem checksumChars_length : ∀ (cs : List Char) (hs : List Nat),
    (checksumChars cs hs).length = cs.length := by
  intro cs
  induction cs with
  | nil => intro hs; cases hs <;> rfl
  | cons c rest ih =>
    intro hs
    cases hs with
    | nil => rfl
    | cons hh ht => simp [checksumChars, ih ht]

theorem bytesToHexChars_length (bs : List Nat) : (bytesToHexChars bs).length = 2 * bs.length := by
  induction bs with
  | nil => rfl
  | cons b rest ih =>
    simp only [bytesToHexChars, List.map_cons, List.flatten_cons, byteHex] at *
    simp [ih]
    omega

theorem hex2Bytes_bytesToHexChars : ∀ a : List Nat, (∀ b ∈ a, b < 256) →
    hex2Bytes (bytesToHexChars a) = a := by
  intro a
  induction a with
  | nil => intro _; rfl
  | cons b rest ih =>
    intro h
    have hb : b < 256 := h b (List.mem_cons_self _ _)
    have h1 : (b / 16) % 16 < 16 := Nat.mod_lt _ (by omega)
    have h2 : b % 16 < 16 := Nat.mod_lt _ (by omega)
    have hrest : ∀ x ∈ rest, x < 256 := fun x hx => h x (List.mem_cons_of_mem _ hx)
    simp only [bytesToHexChars, List.map_cons, List.flatten_cons, byteHex, List.cons_append,
      List.nil_append] at *
    rw [hex2Bytes_pair _ (hexCharVal_toHexChar h1) (hexCharVal_toHexChar h2), ih hrest]
    have : (b / 16) % 16 * 16 + b % 16 = b := by omega
    rw [this]

theorem hex2Bytes_checksum_bytesToHexChars : ∀ (a : List Nat) (hs : List Nat),
    (∀ b ∈ a, b < 256) → hex2Bytes (checksumChars (bytesToHexChars a) hs) = a := by
  intro a
  induction a with
  | nil => intro hs _; cases hs <;> rfl
  | cons b rest ih =>
    intro hs h
    have hb : b < 256 := h b (List.mem_cons_self _ _)
    have h1 : (b / 16) % 16 < 16 := Nat.mod_lt _ (by omega)
    have h2 : b % 16 < 16 := Nat.mod_lt _ (by omega)
    have hbval : (b / 16) % 16 * 16 + b % 16 = b := by omega
    have hrest : ∀ x ∈ rest, x < 256 := fun x hx => h x (List.mem_cons_of_mem _ hx)
    simp only [bytesToHexChars, List.map_cons, List.flatten_cons, byteHex, List.cons_append,
      List.nil_append] at *
    cases hs with
    | nil =>
      show hex2Bytes (toHexChar (b / 16 % 16) :: toHexChar (b % 16) ::
        (rest.map byteHex).flatten) = b :: rest
      rw [hex2Bytes_pair _ (hexCharVal_toHexChar h1) (hexCharVal_toHexChar h2), hbval]
      have hplain := hex2Bytes_bytesToHexChars rest hrest
      simp only [bytesToHexChars] at hplain
      rw [hplain]
    | cons hh ht =>
      cases ht with
      | nil =>
        show hex2Bytes (upperIf (toHexChar (b / 16 % 16)) hh ::
          checksumChars (toHexChar (b % 16) :: (rest.map byteHex).flatten) []) = b :: rest
        have hcs : checksumChars (toHexChar (b % 16) :: (rest.map byteHex).flatten) [] =
            toHexChar (b % 16) :: (rest.map byteHex).flatten := rfl
        rw [hcs,
          hex2Bytes_pair _
            ((hexCharVal_upperIf (toHexChar_mem_lower h1) hh).trans (hexCharVal_toHexChar h1))
            (hexCharVal_toHexChar h2),
          hbval]
        have hplain := hex2Bytes_bytesToHexChars rest hrest
        simp only [bytesToHexChars] at hplain
        rw [hplain]
      | cons hh2 ht2 =>
        show hex2Bytes (upperIf (toHexChar (b / 16 % 16)) hh ::
          upperIf (toHexChar (b % 16)) hh2 ::
          checksumChars ((rest.map byteHex).flatten) ht2) = b :: rest
        rw [hex2Bytes_pair _
            ((hexCharVal_upperIf (toHexChar_mem_lower h1) hh).trans (hexCharVal_toHexChar h1))
            ((hexCharVal_upperIf (toHexChar_mem_lower h2) hh2).trans (hexCharVal_toHexChar h2)),
          hbval]
        have := ih ht2 hrest
        simp only [bytesToHexChars] at this
        rw [this]

theorem hexToAddress_addressHexGo (a : List Nat) (h20 : a.length = 20)
    (hb : ∀ b ∈ a, b < 256) : hexToAddress (addressHexGo a) = a := by
  unfold hexToAddress addressHexGo fromHex
  have hlen : (checksumChars (bytesToHexChars a) (checksumNibbles (bytesToHexChars a))).length
      = 40 := by
    rw [checksumChars_length, bytesToHexChars_length, h20]
  simp only [hlen]
  rw [if_neg (by omega)]
  rw [hex2Bytes_checksum_bytesToHexChars a _ hb]
  unfold bytesToAddress
  simp [h20]

/-! ### Generic helper lemmas -/

theorem getD_set_self {α : Type} {l : List α} {i : Nat} {x : α} (d : α)
    (h : i < l.length) : (l.set i x).getD i d = x := by
  rw [List.getD_eq_getElem?_getD, List.getElem?_set_self h]
  rfl

theorem string_append_empty (s : String) : s ++ "" = s := by
  cases s with
  | mk d =>
    show String.mk (d ++ []) = String.mk d
    rw [List.append_nil]

theorem utf8Bytes_append (a b : String) : utf8Bytes (a ++ b) = utf8Bytes a ++ utf8Bytes b := by
  unfold utf8Bytes
  rw [String.data_append, List.map_append, List.flatten_append]

/-! ### Claim theorems -/

/-- C10: `getDomainSeparator` encodes the chainId field as the 32-byte
big-endian absolute value of the signed integer (via `big.Int.SetInt64` +
`FillBytes`), so domains with chainId `c` and `-c` produce the same domain
separator; a negative chainId is accepted without error (the function has no
failure path). -/
theorem C10_chainId_absolute_value (name version salt vc : String) (c : Int) :
    getDomainSeparator ⟨name, version, c, salt, vc⟩ =
      keccak256
        (keccak256 (utf8Bytes "EIP712Domain(string name,string version,uint256 chainId)")
          ++ keccak256 (utf8Bytes name) ++ keccak256 (utf8Bytes version) ++ be32 c.natAbs) ∧
    getDomainSeparator ⟨name, version, c, salt, vc⟩ =
      getDomainSeparator ⟨name, version, -c, salt, vc⟩ := by
  refine ⟨rfl, ?_⟩
  unfold getDomainSeparator
  simp only [Int.natAbs_neg]

/-- C9: `BuildPolyHmacSignature` and `BuildMessage` produce the same result
for an absent body (`nil`) as for a present but empty body string. -/
theorem C9_nil_body_equals_empty_body (hmacSha256 : List Nat → List Nat → List Nat)
    (secret : String) (timestamp : Int) (method requestPath : String) :
    BuildPolyHmacSignature hmacSha256 secret timestamp method requestPath (some "") =
      BuildPolyHmacSignature hmacSha256 secret timestamp method requestPath none ∧
    BuildMessage timestamp method requestPath (some "") =
      BuildMessage timestamp method requestPath none := by
  simp only [BuildPolyHmacSignature, BuildMessage, string_append_empty]
  exact ⟨trivial, trivial⟩

/-- C6: `BuildPolyHmacSignature` equals the spec formula: the half-URL-safe
translation (`+`→`-`, `/`→`_`, `=` untouched) of the standard base64 of
`HMAC-SHA256` keyed by the URL-safe-base64 decode of the secret (raw secret
bytes on decode failure), over
`decimalString(timestamp) || method || path || body?` with no separators and
the body omitted entirely when absent. -/
theorem C6_hmac_signature_refines_spec (hmacSha256 : List Nat → List Nat → List Nat)
    (secret : String) (timestamp : Int) (method requestPath : String) (body : Option String) :
    BuildPolyHmacSignature hmacSha256 secret timestamp method requestPath body =
      hmacTagSpec hmacSha256 secret timestamp method requestPath body := by
  have hmap : ((fun c => if c = '/' then '_' else c) ∘ fun c => if c = '+' then '-' else c) =
      fun c => if c = '+' then '-' else if c = '/' then '_' else c := by
    funext c
    by_cases h1 : c = '+'
    · subst h1; rfl
    · by_cases h2 : c = '/' <;> simp [h1, h2, Function.comp]
  cases body with
  | none =>
    simp only [BuildPolyHmacSignature, hmacTagSpec, hmacKeySpec, canonicalMessageSpec,
      List.map_map, hmap, utf8Bytes_append, List.append_nil]
  | some b =>
    simp only [BuildPolyHmacSignature, hmacTagSpec, hmacKeySpec, canonicalMessageSpec,
      List.map_map, hmap, utf8Bytes_append, List.append_assoc]

/-- C8: a hex signature string that decodes to a byte string of any length
other than 65 makes both `RecoverAddress` and `RecoverAddressFromMessage`
return the signature-length error (the model is total, so no panic is
possible, and no address is ever returned on this path). -/
theorem C8_wrong_length_signature_error (sigToPub : List Nat → List Nat → Option Nat)
    (pubkeyToAddress : Nat → List Nat) (hash message : List Nat) (s : String) (bs : List Nat)
    (hdec : hexutilDecode s = some bs) (hlen : bs.length ≠ 65) :
    RecoverAddress sigToPub pubkeyToAddress hash s = .error .invalidSignatureLength ∧
    RecoverAddressFromMessage sigToPub pubkeyToAddress message s =
      .error .invalidSignatureLength := by
  unfold RecoverAddress RecoverAddressFromMessage
  simp only [hdec, if_pos hlen]
  exact ⟨trivial, trivial⟩

/-- C8 witness: a 64-byte signature hits the length error. -/
theorem C8_wrong_length_signature_error_witness :
    hexutilDecode (hexutilEncode (List.replicate 64 0)) = some (List.replicate 64 0) ∧
    (List.replicate 64 0 : List Nat).length ≠ 65 ∧
    RecoverAddress (fun _ _ => none) (fun _ => []) [] (hexutilEncode (List.replicate 64 0)) =
      .error .invalidSignatureLength := by
  have hdec : hexutilDecode (hexutilEncode (List.replicate 64 0)) =
      some (List.replicate 64 0) := by decide
  exact ⟨hdec, by decide,
    (C8_wrong_length_signature_error (fun _ _ => none) (fun _ => []) [] [] _ _ hdec
      (by decide)).1⟩

/-- C5: the canonical-path digest equals
`keccak256(0x19 0x01 || domainSeparator || structHash)` with the domain
separator over the `EIP712Domain(string name,string version,uint256 chainId)`
type hash, `keccak256(name)`, `keccak256(version)` and the 32-byte big-endian
chainId (salt and verifyingContract omitted), and the struct hash over the
`ClobAuth` type hash, 12-zero-padded 20-byte address, `keccak256` of the
timestamp string, 32-byte big-endian nonce and `keccak256` of the fixed
attestation message, in that field order. -/
theorem C5_clob_digest_formula (addr : List Nat) (h20 : addr.length = 20)
    (hb : ∀ b ∈ addr, b < 256) (chainID : Int) (hc : 0 ≤ chainID) (timestamp : Int)
    (nonce : Nat) :
    clobAuthDigest addr chainID timestamp nonce =
      clobDigestSpec addr chainID.toNat timestamp nonce := by
  have habs : chainID.natAbs = chainID.toNat := by omega
  simp only [clobAuthDigest, clobDigestSpec, domainSeparatorSpec, clobStructHashSpec,
    getDomainSeparator, getTypeHash, encodeClobAuthData, habs,
    hexToAddress_addressHexGo addr h20 hb, List.append_assoc]

/-- C5 witness: the formula instantiated at a concrete address and
`(chainId, timestamp, nonce) = (137, 1700000000, 0)`. -/
theorem C5_clob_digest_formula_witness :
    (List.replicate 20 17).length = 20 ∧ (∀ b ∈ List.replicate 20 17, b < 256) ∧
    (0 : Int) ≤ 137 ∧
    clobAuthDigest (List.replicate 20 17) 137 1700000000 0 =
      clobDigestSpec (List.replicate 20 17) (Int.toNat 137) 1700000000 0 :=
  ⟨by decide, by decide, by decide,
    C5_clob_digest_formula (List.replicate 20 17) (by decide) (by decide) 137 (by decide)
      1700000000 0⟩

/-- The EIP-55 reference test address `0x5aAeb6053F3E94C9b9A09f33669435E7Ef1BeAed`. -/
def addrEx : List Nat :=
  [0x5a, 0xae, 0xb6, 0x05, 0x3f, 0x3e, 0x94, 0xc9, 0xb9, 0xa0, 0x9f, 0x33, 0x66, 0x94, 0x35,
   0xe7, 0xef, 0x1b, 0xea, 0xed]

/-- C7 counterexample: `GetAddressHex` renders this wallet's address in EIP-55
checksum case — the output contains uppercase hex letters and differs from
the all-lowercase rendering, so it is not the lowercase hex encoding the
claim states. -/
theorem C7_counterexample :
    GetAddressHex ⟨0, addrEx⟩ = "0x5aAeb6053F3E94C9b9A09f33669435E7Ef1BeAed" ∧
    (∃ c ∈ (GetAddressHex ⟨0, addrEx⟩).data, c.isUpper) ∧
    GetAddressHex ⟨0, addrEx⟩ ≠ String.mk ('0' :: 'x' :: bytesToHexChars addrEx) := by
  refine ⟨by decide, by decide, by decide⟩

theorem mem_bytesToHexChars_lower {bs : List Nat} {c : Char} (h : c ∈ bytesToHexChars bs) :
    IsLowerHex c := by
  unfold bytesToHexChars at h
  rw [List.mem_flatten] at h
  obtain ⟨l, hl, hc⟩ := h
  rw [List.mem_map] at hl
  obtain ⟨b, _, rfl⟩ := hl
  unfold byteHex at hc
  rcases List.mem_cons.mp hc with rfl | hc2
  · exact toHexChar_mem_lower (Nat.mod_lt _ (by omega))
  · rcases List.mem_cons.mp hc2 with rfl | hc3
    · exact toHexChar_mem_lower (Nat.mod_lt _ (by omega))
    · cases hc3

theorem hexCharVal_isSome_of_lower {c : Char} (h : IsLowerHex c) :
    (hexCharVal c).isSome := by
  obtain ⟨n, hn, rfl⟩ := h
  interval_cases n <;> decide

theorem mem_checksumChars_hex : ∀ (cs : List Char) (hs : List Nat),
    (∀ c ∈ cs, IsLowerHex c) → ∀ c ∈ checksumChars cs hs, (hexCharVal c).isSome := by
  intro cs
  induction cs with
  | nil => intro hs _ c hc; cases hs <;> cases hc
  | cons a rest ih =>
    intro hs h c hc
    cases hs with
    | nil =>
      exact hexCharVal_isSome_of_lower (h c hc)
    | cons hh ht =>
      rcases List.mem_cons.mp hc with rfl | hc2
      · rw [hexCharVal_upperIf (h a (List.mem_cons_self _ _)) hh]
        exact hexCharVal_isSome_of_lower (h a (List.mem_cons_self _ _))
      · exact ih ht (fun x hx => h x (List.mem_cons_of_mem _ hx)) c hc2

/-- C7 (amended): `GetAddressHex` returns `0x` followed by exactly 40 hex
characters of the 20-byte address, rendered in EIP-55 checksum (mixed)
case rather than all-lowercase. -/
theorem C7_amended (w : Wallet) (h20 : w.address.length = 20) :
    (GetAddressHex w).data.length = 42 ∧
    (GetAddressHex w).data.take 2 = ['0', 'x'] ∧
    ∀ c ∈ (GetAddressHex w).data.drop 2, (hexCharVal c).isSome := by
  unfold GetAddressHex addressHexGo
  refine ⟨?_, rfl, ?_⟩
  · show ('0' :: 'x' :: checksumChars (bytesToHexChars w.address) _).length = 42
    simp only [List.length_cons, checksumChars_length, bytesToHexChars_length, h20]
  · show ∀ c ∈ ('0' :: 'x' :: checksumChars (bytesToHexChars w.address) _).drop 2,
      (hexCharVal c).isSome
    exact mem_checksumChars_hex _ _ (fun c hc => mem_bytesToHexChars_lower hc)

/-- C7 amended witness. -/
theorem C7_amended_witness :
    (Wallet.mk 0 addrEx).address.length = 20 ∧
    ((GetAddressHex ⟨0, addrEx⟩).data.length = 42 ∧
      (GetAddressHex ⟨0, addrEx⟩).data.take 2 = ['0', 'x'] ∧
      ∀ c ∈ (GetAddressHex ⟨0, addrEx⟩).data.drop 2, (hexCharVal c).isSome) :=
  ⟨by decide, C7_amended ⟨0, addrEx⟩ (by decide)⟩

/-! ### Signature production and recovery -/

theorem adjustV27_of_lt27 {s : List Nat} (hv : s.getD 64 0 < 27) :
    adjustV27 s = s.set 64 (s.getD 64 0 + 27) := by
  unfold adjustV27
  simp only [if_pos hv]

/-- A toy signer meeting `crypto.Sign`'s output contract. -/
def goSignToy : List Nat → Nat → List Nat := fun _ _ => List.replicate 64 0 ++ [0]

theorem goSignToy_contract : GoSignOutput goSignToy := by
  intro d k
  show (List.replicate 64 0 ++ [0]).length = 65 ∧
    (∀ b ∈ List.replicate 64 0 ++ [0], b < 256) ∧
    (List.replicate 64 0 ++ [0] : List Nat).getD 64 0 < 2
  decide

/-- Under the `SigToPub` input contract, `RecoverAddress` fails with the
invalid-signature error on **every** well-formed 65-byte signature: the
source maps the recovery byte into {27,28} (27/28 are kept, anything else
gets 27 added) and `crypto.SigToPub` rejects recovery bytes `≥ 4`. -/
theorem recoverAddress_never_succeeds (sigToPub : List Nat → List Nat → Option Nat)
    (pubkeyToAddress : Nat → List Nat) (hrej : SigToPubRejects sigToPub) (hash s : List Nat)
    (hlen : s.length = 65) (hb : ∀ b ∈ s, b < 256) :
    RecoverAddress sigToPub pubkeyToAddress hash (hexutilEncode s) =
      .error .invalidSignature := by
  simp only [RecoverAddress, hexutilDecode_encode s hb]
  rw [if_neg (by omega)]
  by_cases hc : s.getD 64 0 ≠ 27 ∧ s.getD 64 0 ≠ 28
  · rw [if_pos hc, hrej hash _ (by rw [getD_set_self 0 (by omega)]; omega)]
  · rw [if_neg hc, hrej hash s (by omega)]

/-- The same for `RecoverAddressFromMessage` (the source duplicates the
logic, hashing the message first). -/
theorem recoverFromMessage_never_succeeds (sigToPub : List Nat → List Nat → Option Nat)
    (pubkeyToAddress : Nat → List Nat) (hrej : SigToPubRejects sigToPub)
    (message s : List Nat) (hlen : s.length = 65) (hb : ∀ b ∈ s, b < 256) :
    RecoverAddressFromMessage sigToPub pubkeyToAddress message (hexutilEncode s) =
      .error .invalidSignature := by
  simp only [RecoverAddressFromMessage, hexutilDecode_encode s hb]
  rw [if_neg (by omega)]
  by_cases hc : s.getD 64 0 ≠ 27 ∧ s.getD 64 0 ≠ 28
  · rw [if_pos hc, hrej (keccak256 message) _ (by rw [getD_set_self 0 (by omega)]; omega)]
  · rw [if_neg hc, hrej (keccak256 message) s (by omega)]

/-- C2 counterexample: a signer meeting `crypto.Sign`'s output contract
(65 bytes, `v ∈ {0,1}`) makes `SignTypedData` return a signature whose final
recovery byte is 0 — not 27 or 28 — because the source performs no
adjustment there. -/
theorem C2_counterexample :
    GoSignOutput goSignToy ∧
    hexutilDecode (SignTypedData goSignToy 0 ⟨[], "", ⟨"", "", 0, "", ""⟩, Json.null⟩) =
      some (List.replicate 64 0 ++ [0]) ∧
    (List.replicate 64 0 ++ [0] : List Nat).getD 64 0 = 0 := by
  refine ⟨goSignToy_contract, ?_, by decide⟩
  show hexutilDecode (hexutilEncode (List.replicate 64 0 ++ [0])) = _
  decide

/-- C2 (amended): every signature-producing operation returns a 65-byte
signature, but only `BuildClobEip712Signature` canonicalizes the recovery
byte to 27/28; `SignTypedData`, `SignMessage` and `SignHash` return the
library signature with `v ∈ {0,1}` unchanged. -/
theorem C2_amended (sign : List Nat → Nat → List Nat) (hsign : GoSignOutput sign)
    (pubAddr : Nat → List Nat) (k : Nat) (chainID timestamp : Int) (nonce : Nat)
    (td : TypedData) (w : Wallet) (msg hash : List Nat) :
    (∃ sig, hexutilDecode (BuildClobEip712Signature sign pubAddr k chainID timestamp nonce) =
        some sig ∧ sig.length = 65 ∧ (sig.getD 64 0 = 27 ∨ sig.getD 64 0 = 28)) ∧
    (∃ sig, hexutilDecode (SignTypedData sign k td) = some sig ∧ sig.length = 65 ∧
        sig.getD 64 0 < 2) ∧
    (∃ sig, hexutilDecode (SignMessage sign w msg) = some sig ∧ sig.length = 65 ∧
        sig.getD 64 0 < 2) ∧
    (∃ sig, hexutilDecode (SignHash sign w hash) = some sig ∧ sig.length = 65 ∧
        sig.getD 64 0 < 2) := by
  refine ⟨?_, ?_, ?_, ?_⟩
  · obtain ⟨h1, h2, h3⟩ := hsign (clobAuthDigest (pubAddr k) chainID timestamp nonce) k
    have hB : BuildClobEip712Signature sign pubAddr k chainID timestamp nonce =
        hexutilEncode ((sign (clobAuthDigest (pubAddr k) chainID timestamp nonce) k).set 64
          ((sign (clobAuthDigest (pubAddr k) chainID timestamp nonce) k).getD 64 0 + 27)) := by
      simp only [BuildClobEip712Signature]
      rw [adjustV27_of_lt27 (by omega)]
    rw [hB]
    refine ⟨_, hexutilDecode_encode _ ?_, ?_, ?_⟩
    · intro b hb
      rcases List.mem_or_eq_of_mem_set hb with h | rfl
      · exact h2 b h
      · omega
    · rw [List.length_set]; exact h1
    · rw [getD_set_self 0 (by omega)]; omega
  · obtain ⟨h1, h2, h3⟩ := hsign (getTypedDataHash td) k
    exact ⟨_, hexutilDecode_encode _ h2, h1, h3⟩
  · obtain ⟨h1, h2, h3⟩ := hsign (keccak256 msg) w.privateKey
    exact ⟨_, hexutilDecode_encode _ h2, h1, h3⟩
  · obtain ⟨h1, h2, h3⟩ := hsign hash w.privateKey
    exact ⟨_, hexutilDecode_encode _ h2, h1, h3⟩

/-- C2 amended witness, at the toy signer and concrete parameters. -/
theorem C2_amended_witness :
    GoSignOutput goSignToy ∧
    ((∃ sig, hexutilDecode
          (BuildClobEip712Signature goSignToy (fun _ => List.replicate 20 0) 0 137 1700000000 0) =
        some sig ∧ sig.length = 65 ∧ (sig.getD 64 0 = 27 ∨ sig.getD 64 0 = 28)) ∧
      (∃ sig, hexutilDecode (SignTypedData goSignToy 0 ⟨[], "", ⟨"", "", 0, "", ""⟩, Json.null⟩) =
          some sig ∧ sig.length = 65 ∧ sig.getD 64 0 < 2) ∧
      (∃ sig, hexutilDecode (SignMessage goSignToy ⟨0, List.replicate 20 0⟩ []) = some sig ∧
          sig.length = 65 ∧ sig.getD 64 0 < 2) ∧
      (∃ sig, hexutilDecode (SignHash goSignToy ⟨0, List.replicate 20 0⟩ []) = some sig ∧
          sig.length = 65 ∧ sig.getD 64 0 < 2)) :=
  ⟨goSignToy_contract,
    C2_amended goSignToy goSignToy_contract (fun _ => List.replicate 20 0) 0 137 1700000000 0
      ⟨[], "", ⟨"", "", 0, "", ""⟩, Json.null⟩ ⟨0, List.replicate 20 0⟩ [] []⟩

/-- C3 (code bug): signing the canonical-path digest and then recovering with
`RecoverAddress` never yields the signer's address: `BuildClobEip712Signature`
outputs `v ∈ {27,28}`, `RecoverAddress` keeps such a byte unchanged, and
`crypto.SigToPub` rejects every recovery byte `≥ 4`, so recovery always
fails with the invalid-signature error. -/
theorem C3_sign_recover_roundtrip_broken (sign : List Nat → Nat → List Nat)
    (pubAddr : Nat → List Nat) (sigToPub : List Nat → List Nat → Option Nat)
    (pubkeyToAddress : Nat → List Nat) (hsign : GoSignOutput sign)
    (hrej : SigToPubRejects sigToPub) (k : Nat) (chainID timestamp : Int) (nonce : Nat) :
    RecoverAddress sigToPub pubkeyToAddress
      (clobAuthDigest (pubAddr k) chainID timestamp nonce)
      (BuildClobEip712Signature sign pubAddr k chainID timestamp nonce) =
      .error .invalidSignature := by
  obtain ⟨h1, h2, h3⟩ := hsign (clobAuthDigest (pubAddr k) chainID timestamp nonce) k
  show RecoverAddress sigToPub pubkeyToAddress _ (hexutilEncode (adjustV27 _)) = _
  rw [adjustV27_of_lt27 (by omega)]
  apply recoverAddress_never_succeeds _ _ hrej
  · rw [List.length_set]; exact h1
  · intro b hb
    rcases List.mem_or_eq_of_mem_set hb with h | rfl
    · exact h2 b h
    · omega

/-- C3 witness: toy library functions meeting the go-ethereum contracts. -/
theorem C3_sign_recover_roundtrip_broken_witness :
    GoSignOutput goSignToy ∧ SigToPubRejects (fun _ _ => none) ∧
    RecoverAddress (fun _ _ => none) (fun _ => [])
      (clobAuthDigest ((fun _ : Nat => List.replicate 20 0) 0) 137 1700000000 0)
      (BuildClobEip712Signature goSignToy (fun _ => List.replicate 20 0) 0 137 1700000000 0) =
      .error .invalidSignature :=
  ⟨goSignToy_contract, fun _ _ _ => rfl,
    C3_sign_recover_roundtrip_broken goSignToy (fun _ => List.replicate 20 0) (fun _ _ => none)
      (fun _ => []) goSignToy_contract (fun _ _ _ => rfl) 0 137 1700000000 0⟩

/-- C4 (code bug): a 65-byte signature with `v ∈ {0,1,27,28}` is **not**
normalized to {0,1}: the source maps `v` into {27,28} before calling
`crypto.SigToPub`, which rejects recovery bytes `≥ 4`, so both recovery
functions fail with the invalid-signature error instead of returning an
address. -/
theorem C4_recovery_rejects_normalized_v (sigToPub : List Nat → List Nat → Option Nat)
    (pubkeyToAddress : Nat → List Nat) (hrej : SigToPubRejects sigToPub)
    (hash message s : List Nat) (hlen : s.length = 65) (hb : ∀ b ∈ s, b < 256)
    (_hv : s.getD 64 0 = 0 ∨ s.getD 64 0 = 1 ∨ s.getD 64 0 = 27 ∨ s.getD 64 0 = 28) :
    RecoverAddress sigToPub pubkeyToAddress hash (hexutilEncode s) =
      .error .invalidSignature ∧
    RecoverAddressFromMessage sigToPub pubkeyToAddress message (hexutilEncode s) =
      .error .invalidSignature :=
  ⟨recoverAddress_never_succeeds sigToPub pubkeyToAddress hrej hash s hlen hb,
    recoverFromMessage_never_succeeds sigToPub pubkeyToAddress hrej message s hlen hb⟩

/-- C4 witness: a concrete signature with `v = 0`. -/
theorem C4_recovery_rejects_normalized_v_witness :
    SigToPubRejects (fun _ _ => none) ∧
    (List.replicate 64 0 ++ [0] : List Nat).length = 65 ∧
    (List.replicate 64 0 ++ [0] : List Nat).getD 64 0 = 0 ∧
    RecoverAddress (fun _ _ => none) (fun _ => []) []
      (hexutilEncode (List.replicate 64 0 ++ [0])) = .error .invalidSignature :=
  ⟨fun _ _ _ => rfl, by decide, by decide,
    (C4_recovery_rejects_normalized_v (fun _ _ => none) (fun _ => []) (fun _ _ _ => rfl) [] []
      (List.replicate 64 0 ++ [0]) (by decide) (by decide) (by decide)).1⟩

/-! ### The generic typed-data message hash -/

/-- A concrete single-field typed-data value for C1. -/
def tdMail : TypedData :=
  ⟨[("Mail", [⟨"contents", "string"⟩])], "Mail", ⟨"", "", 0, "", ""⟩,
    Json.obj [("contents", Json.str "hi")]⟩

/-- C1 (code bug): `getMessageHash` returns the keccak256 hash of the JSON
serialization of the message — for `tdMail` exactly
`keccak256(utf8("\x7b\"contents\":\"hi\"\x7d"))` — and this differs from the
recursive EIP-712 struct hash of the primary type
(`keccak256(keccak256("Mail(string contents)") || keccak256("hi"))`). -/
theorem C1_messageHash_is_json_hash :
    getMessageHash tdMail = keccak256 (jsonMarshal (Json.obj [("contents", Json.str "hi")])) ∧
    jsonMarshal (Json.obj [("contents", Json.str "hi")]) =
      utf8Bytes "\x7b\"contents\":\"hi\"\x7d" ∧
    eip712MessageHashSpec 2 tdMail =
      some (keccak256 (keccak256 (utf8Bytes "Mail(string contents)")
        ++ keccak256 (utf8Bytes "hi"))) ∧
    eip712MessageHashSpec 2 tdMail ≠ some (getMessageHash tdMail) := by
  refine ⟨rfl, by decide, by decide, by decide⟩

end PolymarketSDK
